import Mathlib

/-!
Verification of the effect-monorepo event broadcast subsystem and its
client-side cache-invalidation protocol, as a shallow embedding of the
TypeScript source.

Embedded source locations:
- `packages/contract/src/index.ts` — the `ServerEvent` wire union
  (`UserCreatedEvent`, `UserUpdatedEvent`, `UserDeletedEvent`, `PingEvent`).
- `packages/server/src/handlers.ts` — `makeEventBus` (`subscribe`,
  `broadcast`, and the `acquireRelease` finalizer that removes a queue).
- `packages/app/src/atoms.ts` — `usersAtom` (reactivity keys), the
  `latestEventAtom` stream pipeline (tap + filter), `createUserAtom`.
- `packages/app/src/App.tsx` — the `createUser` invocation passing
  `reactivityKeys: ["users"]`.
- `packages/server/src/auth/storage.ts` — `getRefreshToken`,
  `revokeRefreshToken`.

Effect `Queue.unbounded` queues are modelled as FIFO lists (oldest first);
queue object identity (the source compares queues with `!==` in the
release filter) is modelled by a natural-number id attached to each queue.
-/

-- ============================================================================
-- Wire contract (packages/contract/src/index.ts)
-- ============================================================================

/-- `Schema.Literal("free", "premium", "enterprise")` from the `User` schema. -/
inductive SubscriptionTier where
  | free
  | premium
  | enterprise
deriving DecidableEq, Repr

/-- The `User` schema class: id, name, email, plus business-context fields.
`Schema.Number` fields are JS numbers holding epoch-milliseconds / cents,
modelled as `Int`; `Schema.optional` fields are `Option`. -/
structure User where
  id : String
  name : String
  email : String
  createdAt : Int
  subscription : Option SubscriptionTier
  lifetimeValueCents : Option Int
  lastSeenAt : Option Int
deriving DecidableEq, Repr

/-- The `ServerEvent` union: `UserCreatedEvent` (type "user.created", carries
the full `User`), `UserUpdatedEvent` (type "user.updated", carries the full
`User`), `UserDeletedEvent` (type "user.deleted", carries only `userId`),
`PingEvent` (type "ping", carries only a timestamp). -/
inductive ServerEvent where
  | userCreated (user : User)
  | userUpdated (user : User)
  | userDeleted (userId : String)
  | ping (timestamp : Int)
deriving DecidableEq, Repr

/-- The `type` discriminant field of a `ServerEvent`, exactly the
`Schema.Literal` string of each variant. -/
def eventType : ServerEvent → String
  | ServerEvent.userCreated _ => "user.created"
  | ServerEvent.userUpdated _ => "user.updated"
  | ServerEvent.userDeleted _ => "user.deleted"
  | ServerEvent.ping _ => "ping"

-- ============================================================================
-- EventBus (packages/server/src/handlers.ts, makeEventBus)
-- ============================================================================

/-- The `Ref<Array<Queue<ServerEvent>>>` of `makeEventBus`: the registry of
subscriber queues, in registration order.  Each queue is a FIFO list of
pending events paired with the id standing for its object identity. -/
abbrev BusState := List (Nat × List ServerEvent)

/-- The queue ids currently registered. -/
def busIds (s : BusState) : List Nat := s.map Prod.fst

/-- The pending-event list of the queue with id `i` (the first registry entry
with that id), `none` when no such queue is registered.  Draining this list
front-to-back is exactly what `Stream.fromQueue` emits for that subscriber. -/
def lookupQueue (i : Nat) (s : BusState) : Option (List ServerEvent) :=
  (s.find? (fun p => p.fst = i)).map Prod.snd

/-- The acquire step of `subscribe`: `Queue.unbounded` yields a fresh empty
queue (id `i`) and `Ref.update(subscribers, Array.append(queue))` appends it
to the registry. -/
def subscribe (i : Nat) (s : BusState) : BusState := s ++ [(i, [])]

/-- The release step of `subscribe`'s `acquireRelease`:
`Ref.update(subscribers, Array.filter((q) => q !== queue))` keeps every
registry entry whose queue is not the released one. -/
def unsubscribe (i : Nat) (s : BusState) : BusState :=
  s.filter (fun p => p.fst ≠ i)

/-- `broadcast(event)`: read the registry snapshot and
`Queue.offer(queue, event)` into each registered queue (enqueue at the back),
discarding results. -/
def broadcast (e : ServerEvent) (s : BusState) : BusState :=
  s.map (fun p => (p.fst, p.snd ++ [e]))

/-- Broadcasting a sequence of events one after the other. -/
def broadcastAll (es : List ServerEvent) (s : BusState) : BusState :=
  es.foldl (fun t e => broadcast e t) s

/-- One registry operation of the bus: a subscriber acquiring, a subscriber
releasing, or a publisher broadcasting. -/
inductive BusOp where
  | subscribe (i : Nat)
  | unsubscribe (i : Nat)
  | broadcast (e : ServerEvent)
deriving DecidableEq, Repr

/-- Interpreting one bus operation on the registry. -/
def stepOp (s : BusState) : BusOp → BusState
  | BusOp.subscribe i => subscribe i s
  | BusOp.unsubscribe i => unsubscribe i s
  | BusOp.broadcast e => broadcast e s

/-- Running a trace of bus operations left to right. -/
def runOps (s : BusState) (ops : List BusOp) : BusState := ops.foldl stepOp s

/-- The events broadcast during a trace, in order. -/
def broadcastsOf (ops : List BusOp) : List ServerEvent :=
  ops.filterMap (fun op =>
    match op with
    | BusOp.broadcast e => some e
    | _ => none)

-- ============================================================================
-- Client-side cache and invalidation (packages/app/src/atoms.ts, App.tsx)
-- ============================================================================

/-- One query registration in the client cache: the reactivity keys it was
registered under, whether it is currently marked stale, and how many refetches
have been issued for it. -/
structure CachedQuery where
  name : String
  keys : List String
  stale : Bool
  refetches : Nat
deriving DecidableEq, Repr

/-- The client cache: the set of currently registered queries. -/
abbrev ClientCache := List CachedQuery

/-- Modelled from the spec: the `Reactivity` invalidation entry point of the
`@effect/experimental` client library (not part of this repository's sources) —
"looks up all cached queries tagged with any of the declared keys and marks
them stale, triggering a background refetch". -/
def invalidate (ks : List String) (cache : ClientCache) : ClientCache :=
  cache.map (fun q =>
    if q.keys.any (fun k => ks.contains k) then
      { q with stale := true, refetches := q.refetches + 1 }
    else q)

/-- The reactivity keys `usersAtom` is registered under
(`atoms.ts`: `reactivityKeys: ["users"]`). -/
def usersAtomKeys : List String := ["users"]

/-- The reactivity keys the `App.tsx` call site passes when invoking
`createUserAtom` (`reactivityKeys: ["users"]`). -/
def createUserReactivityKeys : List String := ["users"]

/-- Modelled from the spec: the `AtomRpc` mutation completion step of the
`@effect-atom` client library (not part of this repository's sources) — upon
the mutation's own response, on success, it immediately invalidates the
declared keys through the shared `Reactivity` instance; whether the
subscription event stream is connected plays no role, so the `connected`
argument does not influence the result. -/
def mutationComplete (success : Bool) (declaredKeys : List String)
    (connected : Bool) (cache : ClientCache) : ClientCache :=
  if success then invalidate declaredKeys cache else cache

/-- The `Stream.tap` handler of `latestEventAtom` (`atoms.ts`): a ping is only
logged; a non-ping event is logged and, exactly when its type is
`"user.created"`, triggers `reactivity.unsafeInvalidate(["users"])`.  The
handler's only input is the observed event itself — no information about which
client performed the originating mutation reaches it. -/
def handleStreamEvent (e : ServerEvent) (cache : ClientCache) : ClientCache :=
  if eventType e = "ping" then cache
  else if eventType e = "user.created" then invalidate ["users"] cache
  else cache

/-- The `Stream.filter` stage of `latestEventAtom` (`atoms.ts`):
`Stream.filter(event => event.type !== "ping")` — only non-ping events are
emitted to the atom feeding the UI. -/
def uiEvents (wire : List ServerEvent) : List ServerEvent :=
  wire.filter (fun e => eventType e ≠ "ping")

-- ============================================================================
-- Refresh-token storage (packages/server/src/auth/storage.ts)
-- ============================================================================

/-- The `RefreshTokenRecord` interface of `storage.ts`. -/
structure RefreshTokenRecord where
  token : String
  userId : String
  createdAt : Int
  revoked : Bool
deriving DecidableEq, Repr

/-- `getRefreshToken`: `tokens.find((t) => t.token === token && !t.revoked)` —
the first stored record matching the token string and not revoked. -/
def getRefreshToken (token : String) (tokens : List RefreshTokenRecord) :
    Option RefreshTokenRecord :=
  tokens.find? (fun t => t.token = token ∧ ¬t.revoked)

/-- `revokeRefreshToken`:
`tokens.map((t) => (t.token === token ? { ...t, revoked: true } : t))`. -/
def revokeRefreshToken (token : String) (tokens : List RefreshTokenRecord) :
    List RefreshTokenRecord :=
  tokens.map (fun t => if t.token = token then { t with revoked := true } else t)

-- ============================================================================
-- Concrete sample data for witnesses
-- ============================================================================

/-- A concrete `User` value, shaped like the seeded "Alice" record of
`makeUsersStore`. -/
def sampleUser : User :=
  { id := "1", name := "Alice", email := "alice@example.com",
    createdAt := 0, subscription := some SubscriptionTier.premium,
    lifetimeValueCents := some 49900, lastSeenAt := some 0 }

/-- A concrete broadcastable event. -/
def sampleEvent : ServerEvent :=
  ServerEvent.userCreated sampleUser

/-- A second, distinct concrete event. -/
def sampleEvent2 : ServerEvent :=
  ServerEvent.userDeleted "2"

/-- A concrete registry holding two subscribers: queue 0 empty, queue 1 with
one pending event. -/
def sampleBus : BusState := [(0, []), (1, [sampleEvent2])]

/-- A concrete cached query: `GetUsers` registered under the reactivity key
`"users"`, currently fresh. -/
def sampleQuery : CachedQuery :=
  { name := "GetUsers", keys := ["users"], stale := false, refetches := 0 }

/-- A concrete client cache holding only `sampleQuery`. -/
def sampleCache : ClientCache := [sampleQuery]

/-- A concrete stored refresh-token record with token string "a". -/
def sampleRecordA : RefreshTokenRecord :=
  { token := "a", userId := "1", createdAt := 0, revoked := false }

/-- A concrete stored refresh-token record with token string "b". -/
def sampleRecordB : RefreshTokenRecord :=
  { token := "b", userId := "2", createdAt := 0, revoked := false }

/-- A concrete refresh-token store holding both sample records. -/
def sampleTokens : List RefreshTokenRecord := [sampleRecordA, sampleRecordB]

-- ============================================================================
-- Registry lookup lemmas
-- ============================================================================

theorem lookupQueue_cons_of_pos (i : Nat) (p : Nat × List ServerEvent)
    (t : BusState) (h : p.fst = i) : lookupQueue i (p :: t) = some p.snd := by
  unfold lookupQueue
  rw [List.find?_cons_of_pos _ (by simp [h])]
  rfl

theorem lookupQueue_cons_of_neg (i : Nat) (p : Nat × List ServerEvent)
    (t : BusState) (h : p.fst ≠ i) : lookupQueue i (p :: t) = lookupQueue i t := by
  unfold lookupQueue
  rw [List.find?_cons_of_neg _ (by simp [h])]

theorem broadcast_cons (e : ServerEvent) (p : Nat × List ServerEvent)
    (t : BusState) :
    broadcast e (p :: t) = (p.fst, p.snd ++ [e]) :: broadcast e t := by
  rfl

theorem unsubscribe_cons_of_hit (j : Nat) (p : Nat × List ServerEvent)
    (t : BusState) (h : p.fst = j) :
    unsubscribe j (p :: t) = unsubscribe j t := by
  unfold unsubscribe
  rw [List.filter_cons_of_neg (by simp [h])]

theorem unsubscribe_cons_of_miss (j : Nat) (p : Nat × List ServerEvent)
    (t : BusState) (h : p.fst ≠ j) :
    unsubscribe j (p :: t) = p :: unsubscribe j t := by
  unfold unsubscribe
  rw [List.filter_cons_of_pos (by simp [h])]

theorem subscribe_cons (j : Nat) (p : Nat × List ServerEvent) (t : BusState) :
    subscribe j (p :: t) = p :: subscribe j t := by
  rfl

theorem lookupQueue_broadcast (i : Nat) (e : ServerEvent) (s : BusState) :
    lookupQueue i (broadcast e s) = (lookupQueue i s).map (fun q => q ++ [e]) := by
  induction s with
  | nil => rfl
  | cons p t ih =>
    rw [broadcast_cons]
    by_cases h : p.fst = i
    · rw [lookupQueue_cons_of_pos i _ _ (by simpa using h),
        lookupQueue_cons_of_pos i p t h]
      rfl
    · rw [lookupQueue_cons_of_neg i _ _ (by simpa using h),
        lookupQueue_cons_of_neg i p t h]
      exact ih

theorem lookupQueue_unsubscribe_self (i : Nat) (s : BusState) :
    lookupQueue i (unsubscribe i s) = none := by
  induction s with
  | nil => rfl
  | cons p t ih =>
    by_cases h : p.fst = i
    · rw [unsubscribe_cons_of_hit i p t h]
      exact ih
    · rw [unsubscribe_cons_of_miss i p t h, lookupQueue_cons_of_neg i p _ h]
      exact ih

theorem lookupQueue_unsubscribe_ne (i j : Nat) (h : i ≠ j) (s : BusState) :
    lookupQueue i (unsubscribe j s) = lookupQueue i s := by
  induction s with
  | nil => rfl
  | cons p t ih =>
    by_cases hj : p.fst = j
    · have hp : p.fst ≠ i := by
        rw [hj]
        exact fun hc => h hc.symm
      rw [unsubscribe_cons_of_hit j p t hj, lookupQueue_cons_of_neg i p t hp]
      exact ih
    · rw [unsubscribe_cons_of_miss j p t hj]
      by_cases hp : p.fst = i
      · rw [lookupQueue_cons_of_pos i p _ hp, lookupQueue_cons_of_pos i p t hp]
      · rw [lookupQueue_cons_of_neg i p _ hp, lookupQueue_cons_of_neg i p t hp]
        exact ih

theorem lookupQueue_subscribe_of_some (i j : Nat) (s : BusState)
    (q : List ServerEvent) (h : lookupQueue i s = some q) :
    lookupQueue i (subscribe j s) = some q := by
  induction s with
  | nil =>
    exact absurd h (by simp [lookupQueue])
  | cons p t ih =>
    rw [subscribe_cons]
    by_cases hp : p.fst = i
    · rw [lookupQueue_cons_of_pos i p t hp] at h
      rw [lookupQueue_cons_of_pos i p _ hp]
      exact h
    · rw [lookupQueue_cons_of_neg i p t hp] at h
      rw [lookupQueue_cons_of_neg i p _ hp]
      exact ih h

theorem lookupQueue_subscribe_inv (i j : Nat) (s : BusState)
    (q : List ServerEvent) (h : lookupQueue i (subscribe j s) = some q) :
    lookupQueue i s = some q ∨ (i = j ∧ q = []) := by
  induction s with
  | nil =>
    by_cases hij : j = i
    · rw [show subscribe j ([] : BusState) = [(j, [])] from rfl,
        lookupQueue_cons_of_pos i (j, []) [] hij] at h
      exact Or.inr ⟨hij.symm, (Option.some_inj.mp h).symm⟩
    · rw [show subscribe j ([] : BusState) = [(j, [])] from rfl,
        lookupQueue_cons_of_neg i (j, []) [] hij] at h
      exact absurd h (by simp [lookupQueue])
  | cons p t ih =>
    rw [subscribe_cons] at h
    by_cases hp : p.fst = i
    · rw [lookupQueue_cons_of_pos i p _ hp] at h
      rw [lookupQueue_cons_of_pos i p t hp]
      exact Or.inl h
    · rw [lookupQueue_cons_of_neg i p _ hp] at h
      rw [lookupQueue_cons_of_neg i p t hp]
      exact ih h

theorem lookupQueue_none_of_not_mem (i : Nat) (s : BusState)
    (h : i ∉ busIds s) : lookupQueue i s = none := by
  induction s with
  | nil => rfl
  | cons p t ih =>
    have h1 : p.fst ≠ i ∧ i ∉ busIds t := by
      constructor
      · intro hc
        exact h (by simp [busIds, hc])
      · intro hc
        refine h ?_
        simp only [busIds, List.map_cons, List.mem_cons]
        exact Or.inr (by simpa [busIds] using hc)
    rw [lookupQueue_cons_of_neg i p t h1.1]
    exact ih h1.2

theorem lookupQueue_subscribe_fresh (i : Nat) (s : BusState)
    (h : i ∉ busIds s) : lookupQueue i (subscribe i s) = some [] := by
  induction s with
  | nil =>
    rw [show subscribe i ([] : BusState) = [(i, [])] from rfl,
      lookupQueue_cons_of_pos i (i, []) [] rfl]
  | cons p t ih =>
    have h1 : p.fst ≠ i ∧ i ∉ busIds t := by
      constructor
      · intro hc
        exact h (by simp [busIds, hc])
      · intro hc
        refine h ?_
        simp only [busIds, List.map_cons, List.mem_cons]
        exact Or.inr (by simpa [busIds] using hc)
    rw [subscribe_cons, lookupQueue_cons_of_neg i p _ h1.1]
    exact ih h1.2

theorem broadcastsOf_cons_broadcast (e : ServerEvent) (ops : List BusOp) :
    broadcastsOf (BusOp.broadcast e :: ops) = e :: broadcastsOf ops := by
  simp [broadcastsOf]

/-- Every event present in subscriber `i`'s queue after running a trace was
either already pending when the trace started or was broadcast during the
trace. -/
theorem queue_events_from_trace (i : Nat) :
    ∀ (ops : List BusOp) (s : BusState) (q : List ServerEvent) (e : ServerEvent),
      lookupQueue i (runOps s ops) = some q → e ∈ q →
      (∃ q0, lookupQueue i s = some q0 ∧ e ∈ q0) ∨ e ∈ broadcastsOf ops := by
  intro ops
  induction ops with
  | nil =>
    intro s q e hq he
    exact Or.inl ⟨q, hq, he⟩
  | cons op rest ih =>
    intro s q e hq he
    have hrun : runOps s (op :: rest) = runOps (stepOp s op) rest := by
      simp [runOps]
    rw [hrun] at hq
    rcases ih (stepOp s op) q e hq he with hin | hbc
    · obtain ⟨q0, hl, he0⟩ := hin
      simp only [stepOp] at hl
      cases op with
      | subscribe j =>
        rcases lookupQueue_subscribe_inv i j s q0 hl with hs | ⟨_, hnil⟩
        · refine Or.inl ⟨q0, hs, he0⟩
        · rw [hnil] at he0
          simp at he0
      | unsubscribe j =>
        by_cases hij : i = j
        · rw [hij, lookupQueue_unsubscribe_self j s] at hl
          simp at hl
        · rw [lookupQueue_unsubscribe_ne i j hij s] at hl
          refine Or.inl ⟨q0, hl, he0⟩
      | broadcast ev =>
        rw [lookupQueue_broadcast i ev s] at hl
        cases hs : lookupQueue i s with
        | none =>
          rw [hs] at hl
          simp at hl
        | some q1 =>
          rw [hs] at hl
          have hl2 : q1 ++ [ev] = q0 := by
            simpa using hl
          rw [← hl2] at he0
          rcases List.mem_append.mp he0 with h1 | h1
          · exact Or.inl ⟨q1, rfl, h1⟩
          · simp only [List.mem_singleton] at h1
            rw [h1, broadcastsOf_cons_broadcast]
            exact Or.inr (List.mem_cons_self _ _)
    · right
      cases op with
      | subscribe j => simpa [broadcastsOf] using hbc
      | unsubscribe j => simpa [broadcastsOf] using hbc
      | broadcast ev =>
        rw [broadcastsOf_cons_broadcast]
        exact List.mem_cons_of_mem ev hbc

-- ============================================================================
-- Claim theorems
-- ============================================================================

/-- C1 (fan-out completeness): for every subscriber queue registered in the
registry snapshot that `broadcast` reads, `broadcast` enqueues exactly one
copy of the event at the back of that queue — the pending count of the event
in that queue grows by exactly one — and it neither adds nor removes any
subscriber.  Since the subscriber's stream is the FIFO drain of its queue
(`Stream.fromQueue`), that subscriber eventually observes exactly the one new
copy. -/
theorem fanout_completeness (s : BusState) (e : ServerEvent) (i : Nat)
    (q : List ServerEvent) (h : (i, q) ∈ s) :
    (i, q ++ [e]) ∈ broadcast e s ∧
    (q ++ [e]).count e = q.count e + 1 ∧
    busIds (broadcast e s) = busIds s := by
  refine ⟨?_, ?_, ?_⟩
  · exact List.mem_map_of_mem _ h
  · simp
  · unfold busIds broadcast
    rw [List.map_map]
    rfl

/-- Concrete run of `fanout_completeness` on a two-subscriber registry. -/
theorem fanout_completeness_witness :
    (1, [sampleEvent2]) ∈ sampleBus ∧
    ((1, [sampleEvent2] ++ [sampleEvent]) ∈ broadcast sampleEvent sampleBus ∧
      ([sampleEvent2] ++ [sampleEvent]).count sampleEvent
        = [sampleEvent2].count sampleEvent + 1 ∧
      busIds (broadcast sampleEvent sampleBus) = busIds sampleBus) :=
  ⟨by decide, fanout_completeness sampleBus sampleEvent 1 [sampleEvent2] (by decide)⟩

/-- C3 (per-subscriber FIFO): broadcasting a sequence of events appends them,
in broadcast order, to the back of every registered subscriber's queue; the
FIFO drain of that queue therefore yields the real events in exactly the
relative order in which they were broadcast.  Nothing relates the queues of
distinct subscribers to each other. -/
theorem fifo_per_subscriber (s : BusState) (es : List ServerEvent) (i : Nat)
    (q : List ServerEvent) (h : (i, q) ∈ s) :
    (i, q ++ es) ∈ broadcastAll es s := by
  induction es generalizing s q with
  | nil => simpa [broadcastAll] using h
  | cons e rest ih =>
    have h1 : (i, q ++ [e]) ∈ broadcast e s := List.mem_map_of_mem _ h
    have h2 := ih (broadcast e s) (q ++ [e]) h1
    simpa [broadcastAll, List.append_assoc] using h2

/-- Concrete run of `fifo_per_subscriber`: two events broadcast in order land
in order at the back of a registered queue. -/
theorem fifo_per_subscriber_witness :
    (0, ([] : List ServerEvent)) ∈ sampleBus ∧
    (0, [] ++ [sampleEvent, sampleEvent2]) ∈
      broadcastAll [sampleEvent, sampleEvent2] sampleBus :=
  ⟨by decide,
    fifo_per_subscriber sampleBus [sampleEvent, sampleEvent2] 0 [] (by decide)⟩

/-- C4 (idempotent unsubscribe): releasing a subscriber's queue twice leaves
the registry exactly as releasing it once does, and releasing a handle whose
queue is not registered (already removed) leaves the registry unchanged; the
release is a total function of the registry, never an error. -/
theorem unsubscribe_idempotent (s : BusState) (i : Nat) :
    unsubscribe i (unsubscribe i s) = unsubscribe i s ∧
    (i ∉ busIds s → unsubscribe i s = s) := by
  constructor
  · induction s with
    | nil => rfl
    | cons p t ih =>
      by_cases h : p.fst = i
      · rw [unsubscribe_cons_of_hit i p t h]
        exact ih
      · rw [unsubscribe_cons_of_miss i p t h, unsubscribe_cons_of_miss i p _ h,
          ih]
  · induction s with
    | nil => exact fun _ => rfl
    | cons p t ih =>
      intro hmem
      have hp : p.fst ≠ i := fun hc => hmem (by simp [busIds, hc])
      have ht : i ∉ busIds t := by
        intro hc
        refine hmem ?_
        simp only [busIds, List.map_cons, List.mem_cons]
        exact Or.inr (by simpa [busIds] using hc)
      rw [unsubscribe_cons_of_miss i p t hp, ih ht]

/-- Concrete run of `unsubscribe_idempotent` on a handle absent from the
registry. -/
theorem unsubscribe_idempotent_witness :
    (unsubscribe 7 (unsubscribe 7 sampleBus) = unsubscribe 7 sampleBus) ∧
    (7 ∉ busIds sampleBus) ∧ unsubscribe 7 sampleBus = sampleBus :=
  ⟨(unsubscribe_idempotent sampleBus 7).1, by decide,
    (unsubscribe_idempotent sampleBus 7).2 (by decide)⟩

/-- C5 (late-subscriber exclusion): a fresh subscription starts with an empty
queue (no historical replay), and every event its queue can ever hold at any
later point stems from a broadcast that happened after its registration — so
an event broadcast only before the subscriber's queue was registered is never
observed by that subscriber. -/
theorem late_subscriber_exclusion (s : BusState) (i : Nat) (later : List BusOp)
    (q : List ServerEvent) (e : ServerEvent) (hfresh : i ∉ busIds s)
    (hq : lookupQueue i (runOps (subscribe i s) later) = some q) (he : e ∈ q) :
    lookupQueue i (subscribe i s) = some [] ∧ e ∈ broadcastsOf later := by
  have hempty := lookupQueue_subscribe_fresh i s hfresh
  refine ⟨hempty, ?_⟩
  rcases queue_events_from_trace i later (subscribe i s) q e hq he with
    ⟨q0, hl, he0⟩ | hbc
  · have hq0 : q0 = [] := Option.some_inj.mp (hl.symm.trans hempty)
    rw [hq0] at he0
    simp at he0
  · exact hbc

/-- Concrete run of `late_subscriber_exclusion`: a subscriber registered on an
empty bus observes an event only because it was broadcast after the
registration. -/
theorem late_subscriber_exclusion_witness :
    (0 ∉ busIds ([] : BusState)) ∧
    (lookupQueue 0 (subscribe 0 []) = some [] ∧
      sampleEvent ∈ broadcastsOf [BusOp.broadcast sampleEvent]) :=
  ⟨by decide,
    late_subscriber_exclusion [] 0 [BusOp.broadcast sampleEvent]
      [sampleEvent] sampleEvent (by decide) (by decide) (by decide)⟩

/-- Invalidating the key "users" marks every cached query registered under
"users" stale and issues one more refetch for it. -/
theorem mem_invalidate_users (cache : ClientCache) (q : CachedQuery)
    (hq : q ∈ cache) (hkey : "users" ∈ q.keys) :
    { q with stale := true, refetches := q.refetches + 1 } ∈
      invalidate ["users"] cache := by
  have hmem := List.mem_map_of_mem
    (fun q' : CachedQuery =>
      if q'.keys.any (fun k => (["users"] : List String).contains k) then
        { q' with stale := true, refetches := q'.refetches + 1 }
      else q') hq
  simpa [invalidate, hkey] using hmem

/-- C6 (synchronous caller-driven invalidation): a successful completion of
the `CreateUser` mutation applies the keys declared at the call site
(`["users"]`, `App.tsx`) to the client cache: the result equals invalidating
the key "users", and every cached query registered under "users" — such as
the `GetUsers` query of `usersAtom` — is marked stale with a refetch issued.
The `connected` flag of the subscription stream is universally quantified, so
this holds in particular when the stream is not connected. -/
theorem caller_driven_invalidation (connected : Bool) (cache : ClientCache)
    (q : CachedQuery) (hq : q ∈ cache) (hkey : "users" ∈ q.keys) :
    mutationComplete true createUserReactivityKeys connected cache
      = invalidate ["users"] cache ∧
    { q with stale := true, refetches := q.refetches + 1 } ∈
      mutationComplete true createUserReactivityKeys connected cache :=
  ⟨rfl, mem_invalidate_users cache q hq hkey⟩

/-- Concrete run of `caller_driven_invalidation` with the subscription stream
disconnected (`connected := false`). -/
theorem caller_driven_invalidation_witness :
    sampleQuery ∈ sampleCache ∧ "users" ∈ sampleQuery.keys ∧
    { sampleQuery with stale := true, refetches := sampleQuery.refetches + 1 } ∈
      mutationComplete true createUserReactivityKeys false sampleCache :=
  ⟨by decide, by decide,
    (caller_driven_invalidation false sampleCache sampleQuery
      (by decide) (by decide)).2⟩

/-- C7 (asynchronous event-driven invalidation): the `latestEventAtom` tap
handler invalidates exactly the key "users" when the observed wire event is a
`user.created` event — marking every query cached under "users" stale and
issuing its refetch — and leaves the cache untouched for every other event
kind.  The handler receives only the event itself, so the behaviour is
independent of which client performed the originating mutation. -/
theorem event_driven_invalidation (e : ServerEvent) (cache : ClientCache)
    (q : CachedQuery) :
    ((∃ u, e = ServerEvent.userCreated u) →
      handleStreamEvent e cache = invalidate ["users"] cache) ∧
    ((∀ u, e ≠ ServerEvent.userCreated u) → handleStreamEvent e cache = cache) ∧
    (∀ u, q ∈ cache → "users" ∈ q.keys →
      { q with stale := true, refetches := q.refetches + 1 } ∈
        handleStreamEvent (ServerEvent.userCreated u) cache) := by
  refine ⟨?_, ?_, ?_⟩
  · rintro ⟨u, rfl⟩
    simp [handleStreamEvent, eventType]
  · intro h
    cases e with
    | userCreated u => exact absurd rfl (h u)
    | userUpdated u => simp [handleStreamEvent, eventType]
    | userDeleted i => simp [handleStreamEvent, eventType]
    | ping ts => simp [handleStreamEvent, eventType]
  · intro u hq hkey
    have hstep : handleStreamEvent (ServerEvent.userCreated u) cache
        = invalidate ["users"] cache := by
      simp [handleStreamEvent, eventType]
    rw [hstep]
    exact mem_invalidate_users cache q hq hkey

/-- Concrete run of `event_driven_invalidation`: the broadcastable
`user.created` sample event invalidates the sample cache. -/
theorem event_driven_invalidation_witness :
    handleStreamEvent sampleEvent sampleCache = invalidate ["users"] sampleCache ∧
    { sampleQuery with stale := true, refetches := sampleQuery.refetches + 1 } ∈
      handleStreamEvent (ServerEvent.userCreated sampleUser) sampleCache :=
  ⟨(event_driven_invalidation sampleEvent sampleCache sampleQuery).1
      ⟨sampleUser, rfl⟩,
    (event_driven_invalidation sampleEvent sampleCache sampleQuery).2.2
      sampleUser (by decide) (by decide)⟩

/-- C8 (heartbeat filtering): no element emitted to the application-level
consumer of `latestEventAtom` has type "ping"; every non-ping event of the
wire stream passes through to the consumer; and the consumer's stream is a
sublist of the wire stream — the surviving events are unchanged and keep
their order. -/
theorem heartbeat_filtering (wire : List ServerEvent) (e : ServerEvent) :
    (e ∈ uiEvents wire → eventType e ≠ "ping") ∧
    (e ∈ wire → eventType e ≠ "ping" → e ∈ uiEvents wire) ∧
    (uiEvents wire).Sublist wire := by
  refine ⟨?_, ?_, ?_⟩
  · intro hmem
    have h1 := List.of_mem_filter hmem
    simpa using h1
  · intro hw hne
    exact List.mem_filter.mpr ⟨hw, by simpa using hne⟩
  · exact List.filter_sublist wire

/-- Concrete run of `heartbeat_filtering` on a wire stream holding one real
event and one ping. -/
theorem heartbeat_filtering_witness :
    sampleEvent ∈ [sampleEvent, ServerEvent.ping 0] ∧
    eventType sampleEvent ≠ "ping" ∧
    sampleEvent ∈ uiEvents [sampleEvent, ServerEvent.ping 0] :=
  ⟨by decide, by decide,
    (heartbeat_filtering [sampleEvent, ServerEvent.ping 0] sampleEvent).2.1
      (by decide) (by decide)⟩

/-- C9 counterexample: the `user.created` event that `CreateUser` broadcasts
is emitted over the subscription stream, yet its `type` discriminant is none
of `resource.created`, `resource.updated`, `resource.deleted`, `ping` — the
vocabulary the claim states. -/
theorem wire_vocabulary_counterexample :
    ¬(eventType sampleEvent = "resource.created" ∨
      eventType sampleEvent = "resource.updated" ∨
      eventType sampleEvent = "resource.deleted" ∨
      eventType sampleEvent = "ping") := by
  decide

/-- C9 (amended): every event of the `ServerEvent` wire union carries a
`type` discriminant whose value is one of exactly `user.created`,
`user.updated`, `user.deleted`, `ping`; the created-event variant carries the
full created user as payload and the deleted-event variant carries only the
user's identifier. -/
theorem wire_vocabulary (e : ServerEvent) :
    (eventType e = "user.created" ∨ eventType e = "user.updated" ∨
      eventType e = "user.deleted" ∨ eventType e = "ping") ∧
    (eventType e = "user.created" → ∃ u, e = ServerEvent.userCreated u) ∧
    (eventType e = "user.deleted" → ∃ i, e = ServerEvent.userDeleted i) := by
  cases e with
  | userCreated u =>
    exact ⟨Or.inl rfl, fun _ => ⟨u, rfl⟩, fun h => by simp [eventType] at h⟩
  | userUpdated u =>
    exact ⟨Or.inr (Or.inl rfl), fun h => by simp [eventType] at h,
      fun h => by simp [eventType] at h⟩
  | userDeleted i =>
    exact ⟨Or.inr (Or.inr (Or.inl rfl)), fun h => by simp [eventType] at h,
      fun _ => ⟨i, rfl⟩⟩
  | ping ts =>
    exact ⟨Or.inr (Or.inr (Or.inr rfl)), fun h => by simp [eventType] at h,
      fun h => by simp [eventType] at h⟩

/-- Concrete run of `wire_vocabulary` on a deleted-event value. -/
theorem wire_vocabulary_witness :
    (eventType sampleEvent2 = "user.created" ∨
      eventType sampleEvent2 = "user.updated" ∨
      eventType sampleEvent2 = "user.deleted" ∨
      eventType sampleEvent2 = "ping") ∧
    (∃ i, sampleEvent2 = ServerEvent.userDeleted i) :=
  ⟨(wire_vocabulary sampleEvent2).1,
    (wire_vocabulary sampleEvent2).2.2 (by decide)⟩

/-- A refresh-token record that is already revoked is left unchanged by
setting its revoked flag. -/
theorem revoked_update_self (r : RefreshTokenRecord) (h : r.revoked = true) :
    { r with revoked := true } = r := by
  cases r
  simp only at h
  simp [h]

/-- C10 (refresh-token revocation): after `revokeRefreshToken t`,
`getRefreshToken t` returns `undefined` (revoked records are never returned);
every stored record whose token differs from `t` is still present unchanged;
and when every record with token `t` is absent or already revoked, the whole
store is left unchanged. -/
theorem revoke_refresh_token (tokens : List RefreshTokenRecord) (t : String) :
    getRefreshToken t (revokeRefreshToken t tokens) = none ∧
    (∀ r, r ∈ tokens → r.token ≠ t → r ∈ revokeRefreshToken t tokens) ∧
    ((∀ r, r ∈ tokens → r.token = t → r.revoked = true) →
      revokeRefreshToken t tokens = tokens) := by
  refine ⟨?_, ?_, ?_⟩
  · induction tokens with
    | nil => rfl
    | cons r rest ih =>
      unfold revokeRefreshToken at ih ⊢
      rw [List.map_cons]
      by_cases h : r.token = t
      · rw [if_pos h]
        unfold getRefreshToken at ih ⊢
        rw [List.find?_cons_of_neg _ (by simp)]
        exact ih
      · rw [if_neg h]
        unfold getRefreshToken at ih ⊢
        rw [List.find?_cons_of_neg _ (by simp [h])]
        exact ih
  · intro r hr hne
    have hmem := List.mem_map_of_mem
      (fun x : RefreshTokenRecord =>
        if x.token = t then { x with revoked := true } else x) hr
    simpa [revokeRefreshToken, hne] using hmem
  · induction tokens with
    | nil => exact fun _ => rfl
    | cons r rest ih =>
      intro h
      unfold revokeRefreshToken at ih ⊢
      rw [List.map_cons,
        ih (fun x hx hxt => h x (List.mem_cons_of_mem r hx) hxt)]
      by_cases hrt : r.token = t
      · rw [if_pos hrt, revoked_update_self r (h r (List.mem_cons_self r rest) hrt)]
      · rw [if_neg hrt]

/-- Concrete run of `revoke_refresh_token`: revoking token "a" hides it from
`getRefreshToken`, keeps the "b" record, and revoking the absent token "c"
changes nothing. -/
theorem revoke_refresh_token_witness :
    getRefreshToken "a" (revokeRefreshToken "a" sampleTokens) = none ∧
    sampleRecordB ∈ sampleTokens ∧ sampleRecordB.token ≠ "a" ∧
    sampleRecordB ∈ revokeRefreshToken "a" sampleTokens ∧
    revokeRefreshToken "c" sampleTokens = sampleTokens :=
  ⟨(revoke_refresh_token sampleTokens "a").1, by decide, by decide,
    (revoke_refresh_token sampleTokens "a").2.1 sampleRecordB
      (by decide) (by decide),
    (revoke_refresh_token sampleTokens "c").2.2 (by decide)⟩
